import Mathlib

/-!
Verification of the real-time session coordinator of the chess repository
(src/server.js).  The JavaScript objects holding the mutable server state
are embedded as association lists over String keys; each socket.io event
handler becomes a pure function from the server state (plus the payload and
the acting connection id) to a new state together with the list of emitted
events, each resolved to its concrete recipient list.  The one-shot grace
timers armed by the disconnect handler are modelled as a multiset of armed
game ids; a timer firing is a separate transition that may only consume an
armed id.  The random token produced by Math.random().toString(36) is an
oracle input to the create handler.
-/

namespace Chess

/-- Association-list lookup, mirroring JavaScript property access obj[k]. -/
def alookup {α : Type} (k : String) : List (String × α) → Option α
  | [] => none
  | (ka, v) :: rest => if ka = k then some v else alookup k rest

/-- Association-list update, mirroring JavaScript assignment obj[k] = v
(overwrites the key when present, appends it otherwise). -/
def aset {α : Type} (k : String) (v : α) : List (String × α) → List (String × α)
  | [] => [(k, v)]
  | (ka, va) :: rest => if ka = k then (k, v) :: rest else (ka, va) :: aset k v rest

/-- Association-list deletion, mirroring JavaScript delete obj[k]. -/
def aerase {α : Type} (k : String) : List (String × α) → List (String × α)
  | [] => []
  | (ka, va) :: rest => if ka = k then rest else (ka, va) :: aerase k rest

/-- Participant record pushed onto game.players in server.js. -/
structure Player where
  id : String
  name : String
  color : String
  deriving DecidableEq, Repr

/-- Participant record pushed onto game.spectators in server.js. -/
structure Spectator where
  id : String
  name : String
  deriving DecidableEq, Repr

/-- Session record stored in the games object of server.js. -/
structure Game where
  id : String
  players : List Player
  gameState : Option String
  spectators : List Spectator
  deriving DecidableEq, Repr

/-- Whole mutable state of the coordinator: the games registry, the reverse
index userGameMap, the socket.io room membership, and the ids whose grace
timer is currently armed (pending setTimeout callbacks). -/
structure ServerState where
  games : List (String × Game)
  userGameMap : List (String × String)
  rooms : List (String × List String)
  pendingTimers : List String
  deriving DecidableEq, Repr

/-- Events emitted by the handlers in server.js. -/
inductive Event where
  | game_created (gameId color : String)
  | errorEv (message : String)
  | joined_as_spectator (gameId : String) (gameState : Option String)
  | spectator_joined (spectator : String)
  | game_joined (gameId color : String)
  | opponent_joined (opponentName : String)
  | move_made (mv : String) (gameState : String)
  | message_received (message sender : String)
  | game_ended (result : String)
  | player_disconnected (message : String)
  deriving DecidableEq, Repr

/-- One delivery: an event together with its resolved recipient list
(socket.emit resolves to the one sender socket, io.to to the room,
socket.to to the room minus the sender). -/
structure Emit where
  recipients : List String
  event : Event
  deriving DecidableEq, Repr

/-- Members of a socket.io room. -/
def roomMembers (g : String) (rooms : List (String × List String)) : List String :=
  (alookup g rooms).getD []

/-- Effect of socket.join(g): room membership is a set, so joining twice is
idempotent. -/
def joinRoom (c g : String) (rooms : List (String × List String)) :
    List (String × List String) :=
  let m := roomMembers g rooms
  aset g (if c ∈ m then m else m ++ [c]) rooms

/-- Effect of a socket disconnecting: socket.io removes it from every room. -/
def leaveAllRooms (c : String) (rooms : List (String × List String)) :
    List (String × List String) :=
  rooms.map (fun r => (r.1, r.2.filter (fun x => x ≠ c)))

/-- Emptiness condition used by the disconnect handler of server.js, both to
arm the cleanup timer and re-checked inside the setTimeout callback:
players.length === 0 || (players.length === 1 && spectators.length === 0). -/
def cleanupCond (game : Game) : Bool :=
  game.players.length == 0 || (game.players.length == 1 && game.spectators.length == 0)

/-- Handler for the create_game event of server.js.  randomId is the token
produced by Math.random().toString(36).substring(2, 8). -/
def create_game (s : ServerState) (socketId playerName randomId : String) :
    ServerState × List Emit :=
  let gameId := randomId
  let game : Game :=
    { id := gameId
      players := [{ id := socketId, name := playerName, color := "w" }]
      gameState := none
      spectators := [] }
  ({ s with
      games := aset gameId game s.games
      userGameMap := aset socketId gameId s.userGameMap
      rooms := joinRoom socketId gameId s.rooms },
   [⟨[socketId], .game_created gameId "w"⟩])

/-- Handler for the join_game event of server.js. -/
def join_game (s : ServerState) (socketId gameId playerName : String) :
    ServerState × List Emit :=
  match alookup gameId s.games with
  | none => (s, [⟨[socketId], .errorEv "Game not found"⟩])
  | some game =>
    if 2 ≤ game.players.length then
      -- Add as spectator
      let game' := { game with spectators := game.spectators ++ [⟨socketId, playerName⟩] }
      let rooms' := joinRoom socketId gameId s.rooms
      ({ s with
          games := aset gameId game' s.games
          userGameMap := aset socketId gameId s.userGameMap
          rooms := rooms' },
       [⟨[socketId], .joined_as_spectator gameId game.gameState⟩,
        ⟨roomMembers gameId rooms', .spectator_joined playerName⟩])
    else
      -- Add as second player
      let game' := { game with
        players := game.players ++ [{ id := socketId, name := playerName, color := "b" }] }
      let rooms' := joinRoom socketId gameId s.rooms
      let firstDst : List String :=
        match game'.players with
        | p :: _ => [p.id]
        | [] => []
      ({ s with
          games := aset gameId game' s.games
          userGameMap := aset socketId gameId s.userGameMap
          rooms := rooms' },
       [⟨[socketId], .game_joined gameId "b"⟩,
        ⟨firstDst, .opponent_joined playerName⟩])

/-- Handler for the make_move event of server.js. -/
def make_move (s : ServerState) (socketId gameId mv gameState : String) :
    ServerState × List Emit :=
  match alookup gameId s.games with
  | none => (s, [⟨[socketId], .errorEv "Game not found"⟩])
  | some game =>
    let game' := { game with gameState := some gameState }
    ({ s with games := aset gameId game' s.games },
     [⟨(roomMembers gameId s.rooms).filter (fun x => x ≠ socketId),
       .move_made mv gameState⟩])

/-- Handler for the send_message event of server.js. -/
def send_message (s : ServerState) (socketId gameId message sender : String) :
    ServerState × List Emit :=
  (s, [⟨(roomMembers gameId s.rooms).filter (fun x => x ≠ socketId),
        .message_received message sender⟩])

/-- Handler for the game_over event of server.js. -/
def game_over (s : ServerState) (socketId gameId result : String) :
    ServerState × List Emit :=
  match alookup gameId s.games with
  | none => (s, [])
  | some _ => (s, [⟨roomMembers gameId s.rooms, .game_ended result⟩])

/-- Removal of the first spectator whose id matches, mirroring
findIndex followed by splice(spectatorIndex, 1) in server.js (a no-op when
no spectator matches, as when findIndex returns -1). -/
def removeFirstSpec (c : String) : List Spectator → List Spectator
  | [] => []
  | x :: rest => if x.id = c then rest else x :: removeFirstSpec c rest

/-- Handler for the disconnect event of server.js.  The socket has left all
rooms by the time the handler runs; a player disconnect broadcasts but does
not touch game.players, a spectator disconnect splices the spectator out; the
cleanup timer is armed when the emptiness condition holds, and the reverse
index entry is deleted inside the same guard. -/
def disconnect (s : ServerState) (socketId : String) : ServerState × List Emit :=
  let rooms' := leaveAllRooms socketId s.rooms
  match alookup socketId s.userGameMap with
  | none => ({ s with rooms := rooms' }, [])
  | some gameId =>
    match alookup gameId s.games with
    | none => ({ s with rooms := rooms' }, [])
    | some game =>
      match game.players.find? (fun p => p.id == socketId) with
      | some p =>
        let pending' :=
          if cleanupCond game then gameId :: s.pendingTimers else s.pendingTimers
        ({ s with
            userGameMap := aerase socketId s.userGameMap
            pendingTimers := pending'
            rooms := rooms' },
         [⟨(roomMembers gameId rooms').filter (fun x => x ≠ socketId),
           .player_disconnected (p.name ++ " has disconnected")⟩])
      | none =>
        let game' := { game with spectators := removeFirstSpec socketId game.spectators }
        let pending' :=
          if cleanupCond game' then gameId :: s.pendingTimers else s.pendingTimers
        ({ s with
            games := aset gameId game' s.games
            userGameMap := aerase socketId s.userGameMap
            pendingTimers := pending'
            rooms := rooms' },
         [])

/-- Body of the setTimeout callback armed by the disconnect handler: re-fetch
games[gameId] and delete it only when it is still present and still satisfies
the emptiness condition.  Firing consumes the armed timer. -/
def fireTimer (s : ServerState) (gameId : String) : ServerState :=
  let games' :=
    match alookup gameId s.games with
    | some game => if cleanupCond game then aerase gameId s.games else s.games
    | none => s.games
  { s with games := games', pendingTimers := s.pendingTimers.erase gameId }

/-- Transitions of the coordinator. -/
inductive Action where
  | create (socketId playerName randomId : String)
  | join (socketId gameId playerName : String)
  | move (socketId gameId mv st : String)
  | chat (socketId gameId message sender : String)
  | gameOverAct (socketId gameId result : String)
  | disc (socketId : String)
  | fire (gameId : String)

/-- Dispatch of one inbound event or timer callback. -/
def stepFn (s : ServerState) : Action → ServerState × List Emit
  | .create c n r => create_game s c n r
  | .join c g n => join_game s c g n
  | .move c g mv st => make_move s c g mv st
  | .chat c g m sn => send_message s c g m sn
  | .gameOverAct c g r => game_over s c g r
  | .disc c => disconnect s c
  | .fire g => (fireTimer s g, [])

/-- Environment constraints on a transition: the generated session token is
fresh (the collision-free behaviour §4.1 of the spec demands; the create
handler itself performs no such check, see create_game_collision), and a
grace timer only fires if it is armed. -/
def ValidAction (s : ServerState) : Action → Prop
  | .create _ _ r => alookup r s.games = none
  | .fire g => g ∈ s.pendingTimers
  | _ => True

/-- Initial state of the coordinator: no games, no index entries, no rooms,
no armed timers. -/
def initState : ServerState := ⟨[], [], [], []⟩

/-- Reachable coordinator states. -/
inductive Reachable : ServerState → Prop where
  | init : Reachable initState
  | step (s : ServerState) (a : Action) :
      Reachable s → ValidAction s a → Reachable (stepFn s a).1

section AListLemmas

variable {α : Type}

theorem alookup_aset_self (k : String) (v : α) (l : List (String × α)) :
    alookup k (aset k v l) = some v := by
  induction l with
  | nil => simp [aset, alookup]
  | cons hd tl ih =>
    obtain ⟨ka, va⟩ := hd
    by_cases h : ka = k
    · simp [aset, h, alookup]
    · simp [aset, h, alookup, ih]

theorem alookup_aset_ne (k k' : String) (v : α) (l : List (String × α)) (h : k' ≠ k) :
    alookup k' (aset k v l) = alookup k' l := by
  induction l with
  | nil => simp [aset, alookup, Ne.symm h]
  | cons hd tl ih =>
    obtain ⟨ka, va⟩ := hd
    by_cases hk : ka = k
    · subst hk
      simp [aset, alookup, Ne.symm h]
    · simp [aset, hk, alookup, ih]

theorem mem_keys_aset (k k' : String) (v : α) (l : List (String × α)) :
    k' ∈ (aset k v l).map Prod.fst ↔ k' = k ∨ k' ∈ l.map Prod.fst := by
  induction l with
  | nil => simp [aset]
  | cons hd tl ih =>
    obtain ⟨ka, va⟩ := hd
    by_cases hk : ka = k
    · subst hk
      have hset : aset ka v ((ka, va) :: tl) = (ka, v) :: tl := by simp [aset]
      rw [hset]
      simp only [List.map_cons, List.mem_cons]
      tauto
    · simp only [aset, if_neg hk, List.map_cons, List.mem_cons, ih]
      tauto

theorem nodup_keys_aset (k : String) (v : α) (l : List (String × α))
    (h : (l.map Prod.fst).Nodup) : ((aset k v l).map Prod.fst).Nodup := by
  induction l with
  | nil => simp [aset]
  | cons hd tl ih =>
    obtain ⟨ka, va⟩ := hd
    simp only [List.map_cons, List.nodup_cons] at h
    by_cases hk : ka = k
    · subst hk
      simpa [aset, List.nodup_cons] using h
    · simp only [aset, if_neg hk, List.map_cons, List.nodup_cons]
      refine ⟨?_, ih h.2⟩
      intro hmem
      rcases (mem_keys_aset k ka v tl).1 hmem with h1 | h1
      · exact hk h1
      · exact h.1 h1

theorem alookup_eq_none (k : String) (l : List (String × α)) (h : k ∉ l.map Prod.fst) :
    alookup k l = none := by
  induction l with
  | nil => rfl
  | cons hd tl ih =>
    obtain ⟨ka, va⟩ := hd
    simp only [List.map_cons, List.mem_cons] at h
    push_neg at h
    simp [alookup, Ne.symm h.1, ih h.2]

theorem alookup_aerase_ne (k k' : String) (l : List (String × α)) (h : k' ≠ k) :
    alookup k' (aerase k l) = alookup k' l := by
  induction l with
  | nil => rfl
  | cons hd tl ih =>
    obtain ⟨ka, va⟩ := hd
    by_cases hk : ka = k
    · subst hk
      simp [aerase, alookup, Ne.symm h]
    · simp [aerase, hk, alookup, ih]

theorem keys_aerase_sublist (k : String) (l : List (String × α)) :
    ((aerase k l).map Prod.fst).Sublist (l.map Prod.fst) := by
  induction l with
  | nil => simp [aerase]
  | cons hd tl ih =>
    obtain ⟨ka, va⟩ := hd
    by_cases hk : ka = k
    · simpa [aerase, hk] using (List.sublist_cons_self ka (tl.map Prod.fst))
    · simpa [aerase, hk] using ih.cons₂ ka

theorem nodup_keys_aerase (k : String) (l : List (String × α))
    (h : (l.map Prod.fst).Nodup) : ((aerase k l).map Prod.fst).Nodup :=
  h.sublist (keys_aerase_sublist k l)

theorem alookup_aerase_self (k : String) (l : List (String × α))
    (h : (l.map Prod.fst).Nodup) : alookup k (aerase k l) = none := by
  induction l with
  | nil => rfl
  | cons hd tl ih =>
    obtain ⟨ka, va⟩ := hd
    simp only [List.map_cons, List.nodup_cons] at h
    by_cases hk : ka = k
    · subst hk
      simpa [aerase] using alookup_eq_none ka tl h.1
    · simp [aerase, hk, alookup, ih h.2]

end AListLemmas

theorem mem_removeFirstSpec_of_ne (c c' : String) (l : List Spectator)
    (hne : c' ≠ c) (h : c' ∈ l.map Spectator.id) :
    c' ∈ (removeFirstSpec c l).map Spectator.id := by
  induction l with
  | nil => simpa using h
  | cons hd tl ih =>
    simp only [List.map_cons, List.mem_cons] at h
    by_cases hk : hd.id = c
    · rcases h with h1 | h1
      · exact absurd (h1.trans hk) hne
      · simpa [removeFirstSpec, hk] using h1
    · rcases h with h1 | h1
      · simp [removeFirstSpec, hk, h1]
      · simp [removeFirstSpec, hk, ih h1]

theorem cleanupCond_iff (game : Game) :
    cleanupCond game = true ↔
      game.players.length = 0 ∨
        (game.players.length = 1 ∧ game.spectators.length = 0) := by
  simp [cleanupCond]

theorem cleanupCond_false_of_two (game : Game) (h : 2 ≤ game.players.length) :
    cleanupCond game = false := by
  have h0 : game.players.length ≠ 0 := by omega
  have h1 : game.players.length ≠ 1 := by omega
  simp [cleanupCond, h0, h1]

theorem mem_roomMembers_joinRoom (c g : String) (rooms : List (String × List String)) :
    c ∈ roomMembers g (joinRoom c g rooms) := by
  unfold joinRoom roomMembers
  rw [alookup_aset_self]
  by_cases h : c ∈ (alookup g rooms).getD [] <;> simp [roomMembers, h]

/-- State shape produced by the create_game handler. -/
theorem create_game_fst (s : ServerState) (c n r : String) :
    (create_game s c n r).1 =
      { s with
          games := aset r ⟨r, [⟨c, n, "w"⟩], none, []⟩ s.games
          userGameMap := aset c r s.userGameMap
          rooms := joinRoom c r s.rooms } := rfl

/-- Behaviour of join_game when the session id is absent. -/
theorem join_game_none (s : ServerState) (c g n : String)
    (hg : alookup g s.games = none) :
    join_game s c g n = (s, [⟨[c], .errorEv "Game not found"⟩]) := by
  simp [join_game, hg]

/-- Behaviour of join_game when the player roster is full: the joiner is
appended to the spectators, the reverse index is updated, the joiner enters
the room, and the two emits are the unicast carrying the current state and
the io.to room broadcast. -/
theorem join_game_full_eq (s : ServerState) (c g n : String) (game : Game)
    (hg : alookup g s.games = some game) (h2 : 2 ≤ game.players.length) :
    join_game s c g n =
      ({ s with
          games := aset g { game with spectators := game.spectators ++ [⟨c, n⟩] } s.games
          userGameMap := aset c g s.userGameMap
          rooms := joinRoom c g s.rooms },
       [⟨[c], .joined_as_spectator g game.gameState⟩,
        ⟨roomMembers g (joinRoom c g s.rooms), .spectator_joined n⟩]) := by
  simp [join_game, hg, h2]

/-- State shape produced by join_game when a player slot is free. -/
theorem join_game_player_fst (s : ServerState) (c g n : String) (game : Game)
    (hg : alookup g s.games = some game) (hlt : game.players.length < 2) :
    (join_game s c g n).1 =
      { s with
          games := aset g { game with players := game.players ++ [⟨c, n, "b"⟩] } s.games
          userGameMap := aset c g s.userGameMap
          rooms := joinRoom c g s.rooms } := by
  simp [join_game, hg, Nat.not_le.mpr hlt]

/-- Behaviour of make_move when the session id is absent. -/
theorem make_move_none (s : ServerState) (c g mv st : String)
    (hg : alookup g s.games = none) :
    make_move s c g mv st = (s, [⟨[c], .errorEv "Game not found"⟩]) := by
  simp [make_move, hg]

/-- Behaviour of make_move on a live session. -/
theorem make_move_some_eq (s : ServerState) (c g mv st : String) (game : Game)
    (hg : alookup g s.games = some game) :
    make_move s c g mv st =
      ({ s with games := aset g { game with gameState := some st } s.games },
       [⟨(roomMembers g s.rooms).filter (fun x => x ≠ c), .move_made mv st⟩]) := by
  simp [make_move, hg]

/-- Behaviour of game_over when the session id is absent: nothing is sent
and nothing changes. -/
theorem game_over_none (s : ServerState) (c g r : String)
    (hg : alookup g s.games = none) :
    game_over s c g r = (s, []) := by
  simp [game_over, hg]

/-- Behaviour of disconnect when the connection has no reverse-index entry. -/
theorem disconnect_nomap (s : ServerState) (c : String)
    (h1 : alookup c s.userGameMap = none) :
    disconnect s c = ({ s with rooms := leaveAllRooms c s.rooms }, []) := by
  simp [disconnect, h1]

/-- Behaviour of disconnect when the reverse-index entry names a session id
absent from the registry: nothing happens, not even the entry removal. -/
theorem disconnect_nogame (s : ServerState) (c g : String)
    (h1 : alookup c s.userGameMap = some g) (h2 : alookup g s.games = none) :
    disconnect s c = ({ s with rooms := leaveAllRooms c s.rooms }, []) := by
  simp [disconnect, h1, h2]

/-- Behaviour of disconnect when the connection is a player of its session:
the game record is untouched (the player is NOT removed), the broadcast goes
to the room minus the leaver, the timer is armed when the emptiness condition
holds, and the reverse-index entry is deleted. -/
theorem disconnect_player_eq (s : ServerState) (c g : String) (game : Game) (p : Player)
    (h1 : alookup c s.userGameMap = some g) (h2 : alookup g s.games = some game)
    (h3 : game.players.find? (fun q => q.id == c) = some p) :
    disconnect s c =
      ({ s with
          userGameMap := aerase c s.userGameMap
          pendingTimers :=
            if cleanupCond game then g :: s.pendingTimers else s.pendingTimers
          rooms := leaveAllRooms c s.rooms },
       [⟨(roomMembers g (leaveAllRooms c s.rooms)).filter (fun x => x ≠ c),
         .player_disconnected (p.name ++ " has disconnected")⟩]) := by
  simp [disconnect, h1, h2, h3]

/-- Behaviour of disconnect when the connection is not a player of its
session: the first matching spectator is spliced out, no event is emitted,
the timer is armed when the emptiness condition holds on the updated record,
and the reverse-index entry is deleted. -/
theorem disconnect_spectator_eq (s : ServerState) (c g : String) (game : Game)
    (h1 : alookup c s.userGameMap = some g) (h2 : alookup g s.games = some game)
    (h3 : game.players.find? (fun q => q.id == c) = none) :
    disconnect s c =
      ({ s with
          games := aset g { game with spectators := removeFirstSpec c game.spectators } s.games
          userGameMap := aerase c s.userGameMap
          pendingTimers :=
            if cleanupCond { game with spectators := removeFirstSpec c game.spectators }
            then g :: s.pendingTimers else s.pendingTimers
          rooms := leaveAllRooms c s.rooms },
       []) := by
  simp [disconnect, h1, h2, h3]

/-- Behaviour of the timer callback when the session is gone. -/
theorem fireTimer_none (s : ServerState) (g : String)
    (hg : alookup g s.games = none) :
    fireTimer s g = { s with pendingTimers := s.pendingTimers.erase g } := by
  simp [fireTimer, hg]

/-- Behaviour of the timer callback when the session is live but no longer
satisfies the emptiness condition: the registry is untouched. -/
theorem fireTimer_keep (s : ServerState) (g : String) (game : Game)
    (hg : alookup g s.games = some game) (hc : cleanupCond game = false) :
    fireTimer s g = { s with pendingTimers := s.pendingTimers.erase g } := by
  simp [fireTimer, hg, hc]

/-- Behaviour of the timer callback when the session is live and still
satisfies the emptiness condition: it is deleted. -/
theorem fireTimer_delete (s : ServerState) (g : String) (game : Game)
    (hg : alookup g s.games = some game) (hc : cleanupCond game = true) :
    fireTimer s g =
      { s with games := aerase g s.games
               pendingTimers := s.pendingTimers.erase g } := by
  simp [fireTimer, hg, hc]

/-- Inductive invariant of the coordinator state: well-formed key sets, the
player-count bounds, soundness of the reverse index, the fact that a
one-player session has no spectators (a spectator can only ever be admitted
once the roster is full and players are never removed), and the facts about
armed timers needed to show a timer deletion never orphans a reverse-index
entry. -/
structure Inv (s : ServerState) : Prop where
  gamesNodup : (s.games.map Prod.fst).Nodup
  mapNodup : (s.userGameMap.map Prod.fst).Nodup
  pendingNodup : s.pendingTimers.Nodup
  playersLe : ∀ g game, alookup g s.games = some game → game.players.length ≤ 2
  playersPos : ∀ g game, alookup g s.games = some game → 1 ≤ game.players.length
  mapSound : ∀ c g, alookup c s.userGameMap = some g →
    ∃ game, alookup g s.games = some game ∧
      (c ∈ game.players.map Player.id ∨ c ∈ game.spectators.map Spectator.id)
  lonelyNoSpec : ∀ g game, alookup g s.games = some game →
    game.players.length = 1 → game.spectators = []
  armedNoEntry : ∀ g, g ∈ s.pendingTimers → ∀ game, alookup g s.games = some game →
    game.players.length = 1 → ∀ c, alookup c s.userGameMap ≠ some g
  pendingLive : ∀ g, g ∈ s.pendingTimers → ∃ game, alookup g s.games = some game

/-- Invariant at the initial state. -/
theorem inv_init : Inv initState := by
  refine ⟨?_, ?_, ?_, ?_, ?_, ?_, ?_, ?_, ?_⟩ <;>
    simp [initState, alookup]

/-- Changing only the room membership preserves the invariant. -/
theorem inv_rooms (s : ServerState) (rooms' : List (String × List String))
    (hInv : Inv s) : Inv { s with rooms := rooms' } :=
  ⟨hInv.gamesNodup, hInv.mapNodup, hInv.pendingNodup, hInv.playersLe, hInv.playersPos,
   hInv.mapSound, hInv.lonelyNoSpec, hInv.armedNoEntry, hInv.pendingLive⟩

/-- The create handler preserves the invariant when the generated token is
fresh. -/
theorem inv_create (s : ServerState) (c n r : String) (hInv : Inv s)
    (hfresh : alookup r s.games = none) : Inv ((create_game s c n r).1) := by
  rw [create_game_fst]
  have hrnp : r ∉ s.pendingTimers := by
    intro hr
    rcases hInv.pendingLive r hr with ⟨game, hgame⟩
    rw [hfresh] at hgame
    exact Option.noConfusion hgame
  refine ⟨nodup_keys_aset _ _ _ hInv.gamesNodup, nodup_keys_aset _ _ _ hInv.mapNodup,
    hInv.pendingNodup, ?_, ?_, ?_, ?_, ?_, ?_⟩
  · intro g game hg
    by_cases hgr : g = r
    · subst hgr
      rw [alookup_aset_self] at hg
      cases hg
      simp
    · rw [alookup_aset_ne _ _ _ _ hgr] at hg
      exact hInv.playersLe g game hg
  · intro g game hg
    by_cases hgr : g = r
    · subst hgr
      rw [alookup_aset_self] at hg
      cases hg
      simp
    · rw [alookup_aset_ne _ _ _ _ hgr] at hg
      exact hInv.playersPos g game hg
  · intro c' g' h
    by_cases hc : c' = c
    · subst hc
      rw [alookup_aset_self] at h
      cases h
      refine ⟨_, alookup_aset_self _ _ _, Or.inl ?_⟩
      simp
    · rw [alookup_aset_ne _ _ _ _ hc] at h
      rcases hInv.mapSound c' g' h with ⟨game, hgame, hmem⟩
      have hgr : g' ≠ r := by
        intro he
        subst he
        rw [hfresh] at hgame
        exact Option.noConfusion hgame
      exact ⟨game, by rw [alookup_aset_ne _ _ _ _ hgr]; exact hgame, hmem⟩
  · intro g game hg hlen
    by_cases hgr : g = r
    · subst hgr
      rw [alookup_aset_self] at hg
      cases hg
      rfl
    · rw [alookup_aset_ne _ _ _ _ hgr] at hg
      exact hInv.lonelyNoSpec g game hg hlen
  · intro g hgp game hg hlen c' hc'
    by_cases hgr : g = r
    · subst hgr
      exact hrnp hgp
    · rw [alookup_aset_ne _ _ _ _ hgr] at hg
      by_cases hcc : c' = c
      · subst hcc
        rw [alookup_aset_self] at hc'
        injection hc' with he
        exact hgr he.symm
      · rw [alookup_aset_ne _ _ _ _ hcc] at hc'
        exact hInv.armedNoEntry g hgp game hg hlen c' hc'
  · intro g hgp
    rcases hInv.pendingLive g hgp with ⟨game, hgame⟩
    have hgr : g ≠ r := by
      intro he
      subst he
      rw [hfresh] at hgame
      exact Option.noConfusion hgame
    exact ⟨game, by rw [alookup_aset_ne _ _ _ _ hgr]; exact hgame⟩

/-- The join handler preserves the invariant. -/
theorem inv_join (s : ServerState) (c g n : String) (hInv : Inv s) :
    Inv ((join_game s c g n).1) := by
  cases hg : alookup g s.games with
  | none =>
    rw [join_game_none s c g n hg]
    exact hInv
  | some game =>
    by_cases h2 : 2 ≤ game.players.length
    · rw [join_game_full_eq s c g n game hg h2]
      refine ⟨nodup_keys_aset _ _ _ hInv.gamesNodup, nodup_keys_aset _ _ _ hInv.mapNodup,
        hInv.pendingNodup, ?_, ?_, ?_, ?_, ?_, ?_⟩
      · intro g' game' hg'
        by_cases hgr : g' = g
        · subst hgr
          rw [alookup_aset_self] at hg'
          cases hg'
          exact hInv.playersLe g' game hg
        · rw [alookup_aset_ne _ _ _ _ hgr] at hg'
          exact hInv.playersLe g' game' hg'
      · intro g' game' hg'
        by_cases hgr : g' = g
        · subst hgr
          rw [alookup_aset_self] at hg'
          cases hg'
          exact hInv.playersPos g' game hg
        · rw [alookup_aset_ne _ _ _ _ hgr] at hg'
          exact hInv.playersPos g' game' hg'
      · intro c' g' h
        by_cases hc : c' = c
        · subst hc
          rw [alookup_aset_self] at h
          cases h
          refine ⟨_, alookup_aset_self _ _ _, Or.inr ?_⟩
          simp
        · rw [alookup_aset_ne _ _ _ _ hc] at h
          rcases hInv.mapSound c' g' h with ⟨gm, hgm, hmem⟩
          by_cases hgr : g' = g
          · subst hgr
            rw [hg] at hgm
            cases hgm
            refine ⟨_, alookup_aset_self _ _ _, ?_⟩
            rcases hmem with hm | hm
            · exact Or.inl hm
            · refine Or.inr ?_
              simp only [List.map_append, List.mem_append]
              exact Or.inl hm
          · exact ⟨gm, by rw [alookup_aset_ne _ _ _ _ hgr]; exact hgm, hmem⟩
      · intro g' game' hg' hlen
        by_cases hgr : g' = g
        · subst hgr
          rw [alookup_aset_self] at hg'
          cases hg'
          have hlen' : game.players.length = 1 := hlen
          omega
        · rw [alookup_aset_ne _ _ _ _ hgr] at hg'
          exact hInv.lonelyNoSpec g' game' hg' hlen
      · intro g' hgp game' hg' hlen c' hc'
        by_cases hgr : g' = g
        · subst hgr
          rw [alookup_aset_self] at hg'
          cases hg'
          have hlen' : game.players.length = 1 := hlen
          omega
        · rw [alookup_aset_ne _ _ _ _ hgr] at hg'
          by_cases hcc : c' = c
          · subst hcc
            rw [alookup_aset_self] at hc'
            injection hc' with he
            exact hgr he.symm
          · rw [alookup_aset_ne _ _ _ _ hcc] at hc'
            exact hInv.armedNoEntry g' hgp game' hg' hlen c' hc'
      · intro g' hgp
        by_cases hgr : g' = g
        · subst hgr
          exact ⟨_, alookup_aset_self _ _ _⟩
        · rcases hInv.pendingLive g' hgp with ⟨gm, hgm⟩
          exact ⟨gm, by rw [alookup_aset_ne _ _ _ _ hgr]; exact hgm⟩
    · have hlt : game.players.length < 2 := Nat.not_le.mp h2
      have hpos : 1 ≤ game.players.length := hInv.playersPos g game hg
      rw [join_game_player_fst s c g n game hg hlt]
      refine ⟨nodup_keys_aset _ _ _ hInv.gamesNodup, nodup_keys_aset _ _ _ hInv.mapNodup,
        hInv.pendingNodup, ?_, ?_, ?_, ?_, ?_, ?_⟩
      · intro g' game' hg'
        by_cases hgr : g' = g
        · subst hgr
          rw [alookup_aset_self] at hg'
          cases hg'
          simp only [List.length_append, List.length_cons, List.length_nil]
          omega
        · rw [alookup_aset_ne _ _ _ _ hgr] at hg'
          exact hInv.playersLe g' game' hg'
      · intro g' game' hg'
        by_cases hgr : g' = g
        · subst hgr
          rw [alookup_aset_self] at hg'
          cases hg'
          simp only [List.length_append, List.length_cons, List.length_nil]
          omega
        · rw [alookup_aset_ne _ _ _ _ hgr] at hg'
          exact hInv.playersPos g' game' hg'
      · intro c' g' h
        by_cases hc : c' = c
        · subst hc
          rw [alookup_aset_self] at h
          cases h
          refine ⟨_, alookup_aset_self _ _ _, Or.inl ?_⟩
          simp
        · rw [alookup_aset_ne _ _ _ _ hc] at h
          rcases hInv.mapSound c' g' h with ⟨gm, hgm, hmem⟩
          by_cases hgr : g' = g
          · subst hgr
            rw [hg] at hgm
            cases hgm
            refine ⟨_, alookup_aset_self _ _ _, ?_⟩
            rcases hmem with hm | hm
            · refine Or.inl ?_
              simp only [List.map_append, List.mem_append]
              exact Or.inl hm
            · exact Or.inr hm
          · exact ⟨gm, by rw [alookup_aset_ne _ _ _ _ hgr]; exact hgm, hmem⟩
      · intro g' game' hg' hlen
        by_cases hgr : g' = g
        · subst hgr
          rw [alookup_aset_self] at hg'
          cases hg'
          have hlen' : (game.players ++ [(⟨c, n, "b"⟩ : Player)]).length = 1 := hlen
          simp only [List.length_append, List.length_cons, List.length_nil] at hlen'
          omega
        · rw [alookup_aset_ne _ _ _ _ hgr] at hg'
          exact hInv.lonelyNoSpec g' game' hg' hlen
      · intro g' hgp game' hg' hlen c' hc'
        by_cases hgr : g' = g
        · subst hgr
          rw [alookup_aset_self] at hg'
          cases hg'
          have hlen' : (game.players ++ [(⟨c, n, "b"⟩ : Player)]).length = 1 := hlen
          simp only [List.length_append, List.length_cons, List.length_nil] at hlen'
          omega
        · rw [alookup_aset_ne _ _ _ _ hgr] at hg'
          by_cases hcc : c' = c
          · subst hcc
            rw [alookup_aset_self] at hc'
            injection hc' with he
            exact hgr he.symm
          · rw [alookup_aset_ne _ _ _ _ hcc] at hc'
            exact hInv.armedNoEntry g' hgp game' hg' hlen c' hc'
      · intro g' hgp
        by_cases hgr : g' = g
        · subst hgr
          exact ⟨_, alookup_aset_self _ _ _⟩
        · rcases hInv.pendingLive g' hgp with ⟨gm, hgm⟩
          exact ⟨gm, by rw [alookup_aset_ne _ _ _ _ hgr]; exact hgm⟩

/-- The move handler preserves the invariant. -/
theorem inv_move (s : ServerState) (c g mv st : String) (hInv : Inv s) :
    Inv ((make_move s c g mv st).1) := by
  cases hg : alookup g s.games with
  | none =>
    rw [make_move_none s c g mv st hg]
    exact hInv
  | some game =>
    rw [make_move_some_eq s c g mv st game hg]
    refine ⟨nodup_keys_aset _ _ _ hInv.gamesNodup, hInv.mapNodup, hInv.pendingNodup,
      ?_, ?_, ?_, ?_, ?_, ?_⟩
    · intro g' game' hg'
      by_cases hgr : g' = g
      · subst hgr
        rw [alookup_aset_self] at hg'
        cases hg'
        exact hInv.playersLe g' game hg
      · rw [alookup_aset_ne _ _ _ _ hgr] at hg'
        exact hInv.playersLe g' game' hg'
    · intro g' game' hg'
      by_cases hgr : g' = g
      · subst hgr
        rw [alookup_aset_self] at hg'
        cases hg'
        exact hInv.playersPos g' game hg
      · rw [alookup_aset_ne _ _ _ _ hgr] at hg'
        exact hInv.playersPos g' game' hg'
    · intro c' g' h
      rcases hInv.mapSound c' g' h with ⟨gm, hgm, hmem⟩
      by_cases hgr : g' = g
      · subst hgr
        rw [hg] at hgm
        cases hgm
        exact ⟨_, alookup_aset_self _ _ _, hmem⟩
      · exact ⟨gm, by rw [alookup_aset_ne _ _ _ _ hgr]; exact hgm, hmem⟩
    · intro g' game' hg' hlen
      by_cases hgr : g' = g
      · subst hgr
        rw [alookup_aset_self] at hg'
        cases hg'
        exact hInv.lonelyNoSpec g' game hg hlen
      · rw [alookup_aset_ne _ _ _ _ hgr] at hg'
        exact hInv.lonelyNoSpec g' game' hg' hlen
    · intro g' hgp game' hg' hlen c' hc'
      by_cases hgr : g' = g
      · subst hgr
        rw [alookup_aset_self] at hg'
        cases hg'
        exact hInv.armedNoEntry g' hgp game hg hlen c' hc'
      · rw [alookup_aset_ne _ _ _ _ hgr] at hg'
        exact hInv.armedNoEntry g' hgp game' hg' hlen c' hc'
    · intro g' hgp
      by_cases hgr : g' = g
      · subst hgr
        exact ⟨_, alookup_aset_self _ _ _⟩
      · rcases hInv.pendingLive g' hgp with ⟨gm, hgm⟩
        exact ⟨gm, by rw [alookup_aset_ne _ _ _ _ hgr]; exact hgm⟩

/-- The chat handler preserves the invariant (it never touches the state). -/
theorem inv_chat (s : ServerState) (c g m sn : String) (hInv : Inv s) :
    Inv ((send_message s c g m sn).1) := hInv

/-- The game_over handler preserves the invariant (it never touches the
state). -/
theorem inv_gameOver (s : ServerState) (c g r : String) (hInv : Inv s) :
    Inv ((game_over s c g r).1) := by
  cases hg : alookup g s.games with
  | none =>
    rw [game_over_none s c g r hg]
    exact hInv
  | some game =>
    have hres : game_over s c g r = (s, [⟨roomMembers g s.rooms, .game_ended r⟩]) := by
      simp [game_over, hg]
    rw [hres]
    exact hInv

/-- The disconnect handler preserves the invariant. -/
theorem inv_disc (s : ServerState) (c : String) (hInv : Inv s) :
    Inv ((disconnect s c).1) := by
  cases h1 : alookup c s.userGameMap with
  | none =>
    rw [disconnect_nomap s c h1]
    exact inv_rooms _ _ hInv
  | some g =>
    cases h2 : alookup g s.games with
    | none =>
      rw [disconnect_nogame s c g h1 h2]
      exact inv_rooms _ _ hInv
    | some game =>
      cases h3 : game.players.find? (fun q => q.id == c) with
      | some p =>
        rw [disconnect_player_eq s c g game p h1 h2 h3]
        by_cases hcond : cleanupCond game = true
        · rw [if_pos hcond]
          have hpos := hInv.playersPos g game h2
          rcases (cleanupCond_iff game).1 hcond with h0 | ⟨hl1, hs0⟩
          · omega
          · have hspec : game.spectators = [] := List.length_eq_zero.mp hs0
            have hpmem : p ∈ game.players := List.mem_of_find?_eq_some h3
            have hpid : p.id = c := by simpa using List.find?_some h3
            rcases List.length_eq_one.mp hl1 with ⟨q, hq⟩
            have hpq : p = q := by
              rw [hq] at hpmem
              simpa using hpmem
            subst hpq
            have hids : game.players.map Player.id = [c] := by
              rw [hq]
              simp [hpid]
            have hnot : g ∉ s.pendingTimers := by
              intro hgp
              exact hInv.armedNoEntry g hgp game h2 hl1 c h1
            refine ⟨hInv.gamesNodup, nodup_keys_aerase _ _ hInv.mapNodup,
              List.nodup_cons.mpr ⟨hnot, hInv.pendingNodup⟩, hInv.playersLe,
              hInv.playersPos, ?_, hInv.lonelyNoSpec, ?_, ?_⟩
            · intro c' g' h
              by_cases hcc : c' = c
              · subst hcc
                rw [alookup_aerase_self _ _ hInv.mapNodup] at h
                exact Option.noConfusion h
              · rw [alookup_aerase_ne _ _ _ hcc] at h
                exact hInv.mapSound c' g' h
            · intro g' hgp game' hg' hlen c' hc'
              by_cases hcc : c' = c
              · subst hcc
                rw [alookup_aerase_self _ _ hInv.mapNodup] at hc'
                exact Option.noConfusion hc'
              · rw [alookup_aerase_ne _ _ _ hcc] at hc'
                rcases List.mem_cons.mp hgp with hgg | hgp'
                · subst hgg
                  rcases hInv.mapSound c' g' hc' with ⟨gm, hgm, hmem⟩
                  rw [h2] at hgm
                  cases hgm
                  rcases hmem with hm | hm
                  · rw [hids] at hm
                    simp at hm
                    exact hcc hm
                  · rw [hspec] at hm
                    simp at hm
                · exact hInv.armedNoEntry g' hgp' game' hg' hlen c' hc'
            · intro g' hgp
              rcases List.mem_cons.mp hgp with hgg | hgp'
              · subst hgg
                exact ⟨game, h2⟩
              · exact hInv.pendingLive g' hgp'
        · rw [if_neg hcond]
          refine ⟨hInv.gamesNodup, nodup_keys_aerase _ _ hInv.mapNodup, hInv.pendingNodup,
            hInv.playersLe, hInv.playersPos, ?_, hInv.lonelyNoSpec, ?_, hInv.pendingLive⟩
          · intro c' g' h
            by_cases hcc : c' = c
            · subst hcc
              rw [alookup_aerase_self _ _ hInv.mapNodup] at h
              exact Option.noConfusion h
            · rw [alookup_aerase_ne _ _ _ hcc] at h
              exact hInv.mapSound c' g' h
          · intro g' hgp game' hg' hlen c' hc'
            by_cases hcc : c' = c
            · subst hcc
              rw [alookup_aerase_self _ _ hInv.mapNodup] at hc'
              exact Option.noConfusion hc'
            · rw [alookup_aerase_ne _ _ _ hcc] at hc'
              exact hInv.armedNoEntry g' hgp game' hg' hlen c' hc'
      | none =>
        rw [disconnect_spectator_eq s c g game h1 h2 h3]
        have hpos := hInv.playersPos g game h2
        have hle := hInv.playersLe g game h2
        have hcnp : c ∉ game.players.map Player.id := by
          intro hm
          rcases List.mem_map.mp hm with ⟨q, hqmem, hqid⟩
          have hq := List.find?_eq_none.mp h3 q hqmem
          simp [hqid] at hq
        rcases hInv.mapSound c g h1 with ⟨gm, hgm, hmem⟩
        rw [h2] at hgm
        cases hgm
        have hcs : c ∈ game.spectators.map Spectator.id := by
          rcases hmem with hm | hm
          · exact absurd hm hcnp
          · exact hm
        have hlen2 : game.players.length = 2 := by
          by_cases hl1 : game.players.length = 1
          · have hsp := hInv.lonelyNoSpec g game h2 hl1
            rw [hsp] at hcs
            simp at hcs
          · omega
        have hcondf :
            cleanupCond { game with spectators := removeFirstSpec c game.spectators }
              = false := by
          apply cleanupCond_false_of_two
          show 2 ≤ game.players.length
          omega
        rw [if_neg (by simp [hcondf])]
        refine ⟨nodup_keys_aset _ _ _ hInv.gamesNodup, nodup_keys_aerase _ _ hInv.mapNodup,
          hInv.pendingNodup, ?_, ?_, ?_, ?_, ?_, ?_⟩
        · intro g' game' hg'
          by_cases hgr : g' = g
          · subst hgr
            rw [alookup_aset_self] at hg'
            cases hg'
            show game.players.length ≤ 2
            omega
          · rw [alookup_aset_ne _ _ _ _ hgr] at hg'
            exact hInv.playersLe g' game' hg'
        · intro g' game' hg'
          by_cases hgr : g' = g
          · subst hgr
            rw [alookup_aset_self] at hg'
            cases hg'
            show 1 ≤ game.players.length
            omega
          · rw [alookup_aset_ne _ _ _ _ hgr] at hg'
            exact hInv.playersPos g' game' hg'
        · intro c' g' h
          by_cases hcc : c' = c
          · subst hcc
            rw [alookup_aerase_self _ _ hInv.mapNodup] at h
            exact Option.noConfusion h
          · rw [alookup_aerase_ne _ _ _ hcc] at h
            rcases hInv.mapSound c' g' h with ⟨gm', hgm', hmem'⟩
            by_cases hgr : g' = g
            · subst hgr
              rw [h2] at hgm'
              cases hgm'
              refine ⟨_, alookup_aset_self _ _ _, ?_⟩
              rcases hmem' with hm | hm
              · exact Or.inl hm
              · exact Or.inr (mem_removeFirstSpec_of_ne c c' game.spectators hcc hm)
            · exact ⟨gm', by rw [alookup_aset_ne _ _ _ _ hgr]; exact hgm', hmem'⟩
        · intro g' game' hg' hlen
          by_cases hgr : g' = g
          · subst hgr
            rw [alookup_aset_self] at hg'
            cases hg'
            have hlen' : game.players.length = 1 := hlen
            omega
          · rw [alookup_aset_ne _ _ _ _ hgr] at hg'
            exact hInv.lonelyNoSpec g' game' hg' hlen
        · intro g' hgp game' hg' hlen c' hc'
          by_cases hcc : c' = c
          · subst hcc
            rw [alookup_aerase_self _ _ hInv.mapNodup] at hc'
            exact Option.noConfusion hc'
          · rw [alookup_aerase_ne _ _ _ hcc] at hc'
            by_cases hgr : g' = g
            · subst hgr
              rw [alookup_aset_self] at hg'
              cases hg'
              have hlen' : game.players.length = 1 := hlen
              omega
            · rw [alookup_aset_ne _ _ _ _ hgr] at hg'
              exact hInv.armedNoEntry g' hgp game' hg' hlen c' hc'
        · intro g' hgp
          by_cases hgr : g' = g
          · subst hgr
            exact ⟨_, alookup_aset_self _ _ _⟩
          · rcases hInv.pendingLive g' hgp with ⟨gm', hgm'⟩
            exact ⟨gm', by rw [alookup_aset_ne _ _ _ _ hgr]; exact hgm'⟩

/-- The timer callback preserves the invariant. -/
theorem inv_fire (s : ServerState) (g : String) (hInv : Inv s)
    (hg : g ∈ s.pendingTimers) : Inv (fireTimer s g) := by
  have herase : ∀ g', g' ∈ s.pendingTimers.erase g → g' ∈ s.pendingTimers :=
    fun g' h => List.mem_of_mem_erase h
  cases hgame : alookup g s.games with
  | none =>
    rw [fireTimer_none s g hgame]
    exact ⟨hInv.gamesNodup, hInv.mapNodup, hInv.pendingNodup.erase g, hInv.playersLe,
      hInv.playersPos, hInv.mapSound, hInv.lonelyNoSpec,
      fun g' h => hInv.armedNoEntry g' (herase g' h),
      fun g' h => hInv.pendingLive g' (herase g' h)⟩
  | some game =>
    by_cases hcond : cleanupCond game = true
    · rw [fireTimer_delete s g game hgame hcond]
      have hpos := hInv.playersPos g game hgame
      have hl1 : game.players.length = 1 := by
        rcases (cleanupCond_iff game).1 hcond with h0 | ⟨h1', _⟩
        · omega
        · exact h1'
      have hne : ∀ g', g' ∈ s.pendingTimers.erase g → g' ≠ g := by
        intro g' h hgg
        subst hgg
        exact (hInv.pendingNodup.mem_erase_iff.mp h).1 rfl
      refine ⟨nodup_keys_aerase _ _ hInv.gamesNodup, hInv.mapNodup,
        hInv.pendingNodup.erase g, ?_, ?_, ?_, ?_, ?_, ?_⟩
      · intro g' game' hg'
        by_cases hgr : g' = g
        · subst hgr
          rw [alookup_aerase_self _ _ hInv.gamesNodup] at hg'
          exact Option.noConfusion hg'
        · rw [alookup_aerase_ne _ _ _ hgr] at hg'
          exact hInv.playersLe g' game' hg'
      · intro g' game' hg'
        by_cases hgr : g' = g
        · subst hgr
          rw [alookup_aerase_self _ _ hInv.gamesNodup] at hg'
          exact Option.noConfusion hg'
        · rw [alookup_aerase_ne _ _ _ hgr] at hg'
          exact hInv.playersPos g' game' hg'
      · intro c' g' h
        rcases hInv.mapSound c' g' h with ⟨gm, hgm, hmem⟩
        have hgr : g' ≠ g := by
          intro hgg
          subst hgg
          exact hInv.armedNoEntry g' hg game hgame hl1 c' h
        exact ⟨gm, by rw [alookup_aerase_ne _ _ _ hgr]; exact hgm, hmem⟩
      · intro g' game' hg' hlen
        by_cases hgr : g' = g
        · subst hgr
          rw [alookup_aerase_self _ _ hInv.gamesNodup] at hg'
          exact Option.noConfusion hg'
        · rw [alookup_aerase_ne _ _ _ hgr] at hg'
          exact hInv.lonelyNoSpec g' game' hg' hlen
      · intro g' hgp game' hg' hlen c' hc'
        have hgr := hne g' hgp
        rw [alookup_aerase_ne _ _ _ hgr] at hg'
        exact hInv.armedNoEntry g' (herase g' hgp) game' hg' hlen c' hc'
      · intro g' hgp
        have hgr := hne g' hgp
        rcases hInv.pendingLive g' (herase g' hgp) with ⟨gm, hgm⟩
        exact ⟨gm, by rw [alookup_aerase_ne _ _ _ hgr]; exact hgm⟩
    · have hcf : cleanupCond game = false := by
        simpa using hcond
      rw [fireTimer_keep s g game hgame hcf]
      exact ⟨hInv.gamesNodup, hInv.mapNodup, hInv.pendingNodup.erase g, hInv.playersLe,
        hInv.playersPos, hInv.mapSound, hInv.lonelyNoSpec,
        fun g' h => hInv.armedNoEntry g' (herase g' h),
        fun g' h => hInv.pendingLive g' (herase g' h)⟩

/-- Every valid transition preserves the invariant. -/
theorem inv_step (s : ServerState) (a : Action) (hInv : Inv s)
    (hv : ValidAction s a) : Inv ((stepFn s a).1) := by
  cases a with
  | create c n r => exact inv_create s c n r hInv hv
  | join c g n => exact inv_join s c g n hInv
  | move c g mv st => exact inv_move s c g mv st hInv
  | chat c g m sn => exact inv_chat s c g m sn hInv
  | gameOverAct c g r => exact inv_gameOver s c g r hInv
  | disc c => exact inv_disc s c hInv
  | fire g => exact inv_fire s g hInv hv

/-- Every reachable state satisfies the invariant. -/
theorem reachable_inv (s : ServerState) (h : Reachable s) : Inv s := by
  induction h with
  | init => exact inv_init
  | step s a _ hv ih => exact inv_step s a ih hv

/-- Scenario state: Ann (connection "A") has created session "g1". -/
def sAnn : ServerState := (create_game initState "A" "Ann" "g1").1

/-- Scenario state: Bob (connection "B") has joined "g1" as second player. -/
def sAnnBob : ServerState := (join_game sAnn "B" "g1" "Bob").1

/-- Scenario state: starting from Ann alone in "g1", Ann disconnects; the
grace timer for "g1" is armed. -/
def sAfterDisc : ServerState := (disconnect sAnn "A").1

/-- Reachability of the one-session scenario state. -/
theorem reachable_sAnn : Reachable sAnn :=
  Reachable.step initState (.create "A" "Ann" "g1") Reachable.init
    (show alookup "g1" initState.games = none by decide)

/-- Reachability of the two-player scenario state. -/
theorem reachable_sAnnBob : Reachable sAnnBob :=
  Reachable.step sAnn (.join "B" "g1" "Bob") reachable_sAnn trivial

/-- Reachability of the armed-timer scenario state. -/
theorem reachable_sAfterDisc : Reachable sAfterDisc :=
  Reachable.step sAnn (.disc "A") reachable_sAnn trivial

/-- Claim C9: a move or join request naming a session id absent from the
registry sends the unicast error event to the requesting connection only and
leaves the entire server state (registry, reverse index, rooms, timers)
unchanged — no partial mutation happens before the error is reported. -/
theorem missing_session_error (s : ServerState) (c g n mv st : String)
    (hg : alookup g s.games = none) :
    join_game s c g n = (s, [⟨[c], .errorEv "Game not found"⟩]) ∧
    make_move s c g mv st = (s, [⟨[c], .errorEv "Game not found"⟩]) :=
  ⟨join_game_none s c g n hg, make_move_none s c g mv st hg⟩

/-- Witness for C9 at a concrete input: session "zz" does not exist in the
one-session state sAnn. -/
theorem missing_session_error_witness :
    (alookup "zz" sAnn.games = none) ∧
    (join_game sAnn "B" "zz" "Bob" = (sAnn, [⟨["B"], .errorEv "Game not found"⟩]) ∧
     make_move sAnn "B" "zz" "e4" "fen1" = (sAnn, [⟨["B"], .errorEv "Game not found"⟩])) :=
  ⟨by decide, missing_session_error sAnn "B" "zz" "Bob" "e4" "fen1" (by decide)⟩

/-- Claim C10: a gameOver request naming a session id absent from the
registry is silently dropped — no event is sent to anyone (in particular no
error unicast) and the state is unchanged. -/
theorem game_over_missing_silent (s : ServerState) (c g r : String)
    (hg : alookup g s.games = none) :
    game_over s c g r = (s, []) :=
  game_over_none s c g r hg

/-- Witness for C10 at a concrete input. -/
theorem game_over_missing_silent_witness :
    (alookup "zz" sAnn.games = none) ∧ game_over sAnn "A" "zz" "draw" = (sAnn, []) :=
  ⟨by decide, game_over_missing_silent sAnn "A" "zz" "draw" (by decide)⟩

/-- Counterexample to claim C4: the create handler performs no collision
check.  When the generated six-character token collides with the live
session "abc123", the existing record is overwritten: afterwards the
registry holds only Bob's fresh session and Ann's session is gone. -/
theorem create_game_collision :
    ((create_game (create_game initState "A" "Ann" "abc123").1 "B" "Bob" "abc123").1).games
      = [("abc123",
          { id := "abc123"
            players := [{ id := "B", name := "Bob", color := "w" }]
            gameState := none
            spectators := [] })] := by decide

/-- Claim C4 (amended): create_game inserts a session under the generated
token with players holding only the host (color "w") and state null, and
updates the reverse index for the host; but it performs no collision check —
the token's registry slot is written unconditionally, so a colliding token
overwrites the existing live session (other sessions are untouched). -/
theorem create_game_inserts (s : ServerState) (c n r : String) :
    alookup r ((create_game s c n r).1).games =
      some { id := r, players := [{ id := c, name := n, color := "w" }],
             gameState := none, spectators := [] } ∧
    (∀ g, g ≠ r → alookup g ((create_game s c n r).1).games = alookup g s.games) ∧
    alookup c ((create_game s c n r).1).userGameMap = some r := by
  rw [create_game_fst]
  exact ⟨alookup_aset_self _ _ _, fun g hgr => alookup_aset_ne _ _ _ _ hgr,
    alookup_aset_self _ _ _⟩

/-- Witness for the amended C4 at a concrete input. -/
theorem create_game_inserts_witness :
    alookup "g1" sAnn.games =
      some { id := "g1", players := [{ id := "A", name := "Ann", color := "w" }],
             gameState := none, spectators := [] } ∧
    alookup "zz" sAnn.games = alookup "zz" initState.games ∧
    alookup "A" sAnn.userGameMap = some "g1" :=
  ⟨(create_game_inserts initState "A" "Ann" "g1").1,
   (create_game_inserts initState "A" "Ann" "g1").2.1 "zz" (by decide),
   (create_game_inserts initState "A" "Ann" "g1").2.2⟩

/-- Counterexample to claim C6: connection "A", already the sole player of
session "g1", sends join for "g1" and is admitted again as second player —
afterwards it is listed twice in the same session's players sequence. -/
theorem join_duplicate_membership :
    (alookup "g1" ((join_game sAnn "A" "g1" "Ann").1).games).map
        (fun gm => gm.players.map Player.id)
      = some ["A", "A"] := by decide

/-- Claim C6 (amended): the reverse index maps each connection to at most
one session (its keys are duplicate-free), but session membership itself is
not deduplicated: join_game appends the joiner to a non-full roster
unconditionally, with no check that the connection is already listed in this
or any other session, so a connection can end up listed in two sessions or
twice in one session. -/
theorem join_no_membership_check (s : ServerState) (c g n : String) (game : Game)
    (hs : Reachable s) (hg : alookup g s.games = some game)
    (hlt : game.players.length < 2) :
    ((s.userGameMap.map Prod.fst).Nodup) ∧
    alookup g ((join_game s c g n).1).games =
      some { game with players := game.players ++ [{ id := c, name := n, color := "b" }] } := by
  refine ⟨(reachable_inv s hs).mapNodup, ?_⟩
  rw [join_game_player_fst s c g n game hg hlt]
  exact alookup_aset_self _ _ _

/-- Witness for the amended C6 at a concrete input. -/
theorem join_no_membership_check_witness :
    (alookup "g1" sAnn.games =
       some ⟨"g1", [⟨"A", "Ann", "w"⟩], none, []⟩) ∧
    ((sAnn.userGameMap.map Prod.fst).Nodup ∧
     alookup "g1" sAnnBob.games =
       some ⟨"g1", [⟨"A", "Ann", "w"⟩, ⟨"B", "Bob", "b"⟩], none, []⟩) :=
  ⟨by decide,
   join_no_membership_check sAnn "B" "g1" "Bob" ⟨"g1", [⟨"A", "Ann", "w"⟩], none, []⟩
     reachable_sAnn (by decide) (by decide)⟩

/-- Counterexample to claim C7: when Cid joins the full session "g1" as a
spectator, the spectator_joined broadcast is sent with io.to to the whole
room, which Cid has just joined — the joiner receives the event instead of
being excluded (recipients are Ann, Bob AND Cid). -/
theorem spectator_joined_includes_joiner :
    (join_game sAnnBob "C" "g1" "Cid").2 =
      [⟨["C"], .joined_as_spectator "g1" none⟩,
       ⟨["A", "B", "C"], .spectator_joined "Cid"⟩] := by decide

/-- Claim C7 (amended): a join on a session with a full roster appends the
joiner to the spectators, unicasts joined_as_spectator carrying the session's
current state verbatim to the joiner, and broadcasts spectator_joined with
the joiner's name to all members of the session's room including the joiner
themself (io.to after socket.join, not socket.to). -/
theorem join_spectator_behavior (s : ServerState) (c g n : String) (game : Game)
    (hg : alookup g s.games = some game) (h2 : 2 ≤ game.players.length) :
    (join_game s c g n).1.games =
      aset g { game with spectators := game.spectators ++ [⟨c, n⟩] } s.games ∧
    (join_game s c g n).2 =
      [⟨[c], .joined_as_spectator g game.gameState⟩,
       ⟨roomMembers g (joinRoom c g s.rooms), .spectator_joined n⟩] ∧
    c ∈ roomMembers g (joinRoom c g s.rooms) := by
  rw [join_game_full_eq s c g n game hg h2]
  exact ⟨rfl, rfl, mem_roomMembers_joinRoom c g s.rooms⟩

/-- Witness for the amended C7 at a concrete input. -/
theorem join_spectator_behavior_witness :
    (join_game sAnnBob "C" "g1" "Cid").1.games =
      aset "g1" ⟨"g1", [⟨"A", "Ann", "w"⟩, ⟨"B", "Bob", "b"⟩], none, [⟨"C", "Cid"⟩]⟩
        sAnnBob.games ∧
    (join_game sAnnBob "C" "g1" "Cid").2 =
      [⟨["C"], .joined_as_spectator "g1" none⟩,
       ⟨roomMembers "g1" (joinRoom "C" "g1" sAnnBob.rooms), .spectator_joined "Cid"⟩] ∧
    "C" ∈ roomMembers "g1" (joinRoom "C" "g1" sAnnBob.rooms) :=
  join_spectator_behavior sAnnBob "C" "g1" "Cid"
    ⟨"g1", [⟨"A", "Ann", "w"⟩, ⟨"B", "Bob", "b"⟩], none, []⟩ (by decide) (by decide)

/-- Claim C8: a participant admitted as a player gets color "w" (the spec's
"first") exactly when the players sequence was empty at admission, and "b"
(the spec's "second") otherwise: the create path installs the host as sole
player with "w", and at every reachable state a join that finds a free
player slot finds a non-empty roster (every registered session keeps at
least its host), so the admitted second player is assigned "b". -/
theorem player_color_assignment (s : ServerState) (hs : Reachable s) :
    (∀ c n r, alookup r ((create_game s c n r).1).games =
       some { id := r, players := [{ id := c, name := n, color := "w" }],
              gameState := none, spectators := [] }) ∧
    (∀ c g n game, alookup g s.games = some game → game.players.length < 2 →
       game.players ≠ [] ∧
       alookup g ((join_game s c g n).1).games =
         some { game with
                  players := game.players ++ [{ id := c, name := n, color := "b" }] }) := by
  constructor
  · intro c n r
    rw [create_game_fst]
    exact alookup_aset_self _ _ _
  · intro c g n game hg hlt
    constructor
    · have hpos := (reachable_inv s hs).playersPos g game hg
      intro he
      rw [he] at hpos
      simp at hpos
    · rw [join_game_player_fst s c g n game hg hlt]
      exact alookup_aset_self _ _ _

/-- Witness for C8 at concrete inputs: the create path colors the host "w",
and Bob joining Ann's non-empty single-player session is colored "b". -/
theorem player_color_assignment_witness :
    (alookup "g2" ((create_game sAnn "B" "Bob" "g2").1).games =
       some { id := "g2", players := [{ id := "B", name := "Bob", color := "w" }],
              gameState := none, spectators := [] }) ∧
    (([⟨"A", "Ann", "w"⟩] : List Player) ≠ [] ∧
     alookup "g1" sAnnBob.games =
       some ⟨"g1", [⟨"A", "Ann", "w"⟩, ⟨"B", "Bob", "b"⟩], none, []⟩) :=
  ⟨(player_color_assignment sAnn reachable_sAnn).1 "B" "Bob" "g2",
   (player_color_assignment sAnn reachable_sAnn).2 "B" "g1" "Bob"
     ⟨"g1", [⟨"A", "Ann", "w"⟩], none, []⟩ (by decide) (by decide)⟩

/-- Claim C5: at every reachable state every session's players sequence has
length at most 2, and every valid transition (create, join, move, chat,
gameOver, disconnect, timer fire) preserves the bound. -/
theorem players_at_most_two (s : ServerState) (hs : Reachable s) :
    (∀ g game, alookup g s.games = some game → game.players.length ≤ 2) ∧
    (∀ a, ValidAction s a →
       ∀ g game, alookup g ((stepFn s a).1).games = some game →
         game.players.length ≤ 2) :=
  ⟨(reachable_inv s hs).playersLe,
   fun a hv => (inv_step s a (reachable_inv s hs) hv).playersLe⟩

/-- Witness for C5 at concrete inputs: the bound at the two-player state,
and after one more join step (which admits Cid only as spectator). -/
theorem players_at_most_two_witness :
    ((⟨"g1", [⟨"A", "Ann", "w"⟩, ⟨"B", "Bob", "b"⟩], none, []⟩ : Game).players.length ≤ 2) ∧
    ((⟨"g1", [⟨"A", "Ann", "w"⟩, ⟨"B", "Bob", "b"⟩], none,
        [⟨"C", "Cid"⟩]⟩ : Game).players.length ≤ 2) :=
  ⟨(players_at_most_two sAnnBob reachable_sAnnBob).1 "g1" _ (by decide),
   (players_at_most_two sAnnBob reachable_sAnnBob).2 (.join "C" "g1" "Cid") trivial
     "g1" _ (by decide)⟩

/-- Claim C3: at every reachable state the reverse index has at most one
entry per connection (duplicate-free keys), every entry points to a live
session that lists the connection as a player or spectator, and processing
the connection's disconnect always leaves it without a reverse-index entry. -/
theorem reverse_index_consistency (s : ServerState) (c : String) (hs : Reachable s) :
    (s.userGameMap.map Prod.fst).Nodup ∧
    (∀ g, alookup c s.userGameMap = some g →
       ∃ game, alookup g s.games = some game ∧
         (c ∈ game.players.map Player.id ∨ c ∈ game.spectators.map Spectator.id)) ∧
    alookup c ((disconnect s c).1).userGameMap = none := by
  have hInv := reachable_inv s hs
  refine ⟨hInv.mapNodup, fun g h => hInv.mapSound c g h, ?_⟩
  cases h1 : alookup c s.userGameMap with
  | none =>
    rw [disconnect_nomap s c h1]
    exact h1
  | some g =>
    rcases hInv.mapSound c g h1 with ⟨game, hgame, _⟩
    cases h3 : game.players.find? (fun q => q.id == c) with
    | some p =>
      rw [disconnect_player_eq s c g game p h1 hgame h3]
      exact alookup_aerase_self _ _ hInv.mapNodup
    | none =>
      rw [disconnect_spectator_eq s c g game h1 hgame h3]
      exact alookup_aerase_self _ _ hInv.mapNodup

/-- Witness for C3 at a concrete input. -/
theorem reverse_index_consistency_witness :
    (sAnnBob.userGameMap.map Prod.fst).Nodup ∧
    (∃ game, alookup "g1" sAnnBob.games = some game ∧
       ("A" ∈ game.players.map Player.id ∨ "A" ∈ game.spectators.map Spectator.id)) ∧
    alookup "A" ((disconnect sAnnBob "A").1).userGameMap = none :=
  ⟨(reverse_index_consistency sAnnBob "A" reachable_sAnnBob).1,
   (reverse_index_consistency sAnnBob "A" reachable_sAnnBob).2.1 "g1" (by decide),
   (reverse_index_consistency sAnnBob "A" reachable_sAnnBob).2.2⟩

/-- Counterexample to claim C2: Ann is a player of the two-player session
"g1"; after her disconnect is processed the session still lists her in its
players sequence — the disconnect handling does not remove a player. -/
theorem disconnect_keeps_player :
    (alookup "g1" ((disconnect sAnnBob "A").1).games).map
        (fun gm => gm.players.map Player.id)
      = some ["A", "B"] := by decide

/-- Claim C2 (amended): on disconnect of a player the session record is left
completely unchanged — in particular the player stays in the players
sequence — while player_disconnected carrying the player's name is broadcast
to the remaining room members and the reverse-index entry is removed; on
disconnect of a non-player the first matching spectator is spliced out, the
reverse-index entry is removed, and nothing is broadcast. -/
theorem disconnect_behavior (s : ServerState) (c g : String) (game : Game)
    (hs : Reachable s) (hmap : alookup c s.userGameMap = some g)
    (hgame : alookup g s.games = some game) :
    (∀ p, game.players.find? (fun q => q.id == c) = some p →
       alookup g ((disconnect s c).1).games = some game ∧
       alookup c ((disconnect s c).1).userGameMap = none ∧
       (disconnect s c).2 =
         [⟨(roomMembers g (leaveAllRooms c s.rooms)).filter (fun x => x ≠ c),
           .player_disconnected (p.name ++ " has disconnected")⟩]) ∧
    (game.players.find? (fun q => q.id == c) = none →
       alookup g ((disconnect s c).1).games =
         some { game with spectators := removeFirstSpec c game.spectators } ∧
       alookup c ((disconnect s c).1).userGameMap = none ∧
       (disconnect s c).2 = []) := by
  have hInv := reachable_inv s hs
  constructor
  · intro p h3
    rw [disconnect_player_eq s c g game p hmap hgame h3]
    exact ⟨hgame, alookup_aerase_self _ _ hInv.mapNodup, rfl⟩
  · intro h3
    rw [disconnect_spectator_eq s c g game hmap hgame h3]
    exact ⟨alookup_aset_self _ _ _, alookup_aerase_self _ _ hInv.mapNodup, rfl⟩

/-- Witness for the amended C2 at a concrete input: Ann's disconnect from
the two-player session leaves the record unchanged, removes her index entry,
and broadcasts to Bob alone. -/
theorem disconnect_behavior_witness :
    alookup "g1" ((disconnect sAnnBob "A").1).games =
      some ⟨"g1", [⟨"A", "Ann", "w"⟩, ⟨"B", "Bob", "b"⟩], none, []⟩ ∧
    alookup "A" ((disconnect sAnnBob "A").1).userGameMap = none ∧
    (disconnect sAnnBob "A").2 =
      [⟨["B"], .player_disconnected "Ann has disconnected"⟩] := by
  have h := (disconnect_behavior sAnnBob "A" "g1"
      ⟨"g1", [⟨"A", "Ann", "w"⟩, ⟨"B", "Bob", "b"⟩], none, []⟩
      reachable_sAnnBob (by decide) (by decide)).1
    ⟨"A", "Ann", "w"⟩ (by decide)
  exact ⟨h.1, h.2.1, by rw [h.2.2]; decide⟩

/-- Claim C1: once the grace timer for session g is armed, the firing
callback deletes g only when it is still present in the registry and still
satisfies the emptiness condition at fire time (when the session is gone or
no longer empty the registry is untouched), and a session that a new
participant joined between arming and firing never satisfies the condition
at fire time, hence is never deleted by the callback. -/
theorem grace_timer_double_check (s : ServerState) (g : String)
    (hs : Reachable s) (hg : g ∈ s.pendingTimers) :
    (∀ game, alookup g s.games = some game →
       alookup g (fireTimer s g).games =
         (if cleanupCond game then none else some game)) ∧
    (alookup g s.games = none → (fireTimer s g).games = s.games) ∧
    (∀ c n game, alookup g s.games = some game →
       alookup g (fireTimer ((join_game s c g n).1) g).games ≠ none) := by
  have hInv := reachable_inv s hs
  refine ⟨?_, ?_, ?_⟩
  · intro game hgame
    by_cases hcond : cleanupCond game = true
    · rw [fireTimer_delete s g game hgame hcond, if_pos hcond]
      exact alookup_aerase_self _ _ hInv.gamesNodup
    · have hcf : cleanupCond game = false := by simpa using hcond
      rw [fireTimer_keep s g game hgame hcf, if_neg hcond]
      exact hgame
  · intro hnone
    rw [fireTimer_none s g hnone]
  · intro c n game hgame
    by_cases h2 : 2 ≤ game.players.length
    · have hlook : alookup g ((join_game s c g n).1).games =
          some { game with spectators := game.spectators ++ [⟨c, n⟩] } := by
        rw [join_game_full_eq s c g n game hgame h2]
        exact alookup_aset_self _ _ _
      have hcf :
          cleanupCond { game with spectators := game.spectators ++ [⟨c, n⟩] } = false :=
        cleanupCond_false_of_two _ h2
      rw [fireTimer_keep _ g _ hlook hcf]
      show alookup g ((join_game s c g n).1).games ≠ none
      rw [hlook]
      simp
    · have hlt : game.players.length < 2 := Nat.not_le.mp h2
      have hpos := hInv.playersPos g game hgame
      have hlook : alookup g ((join_game s c g n).1).games =
          some { game with
                   players := game.players ++ [{ id := c, name := n, color := "b" }] } := by
        rw [join_game_player_fst s c g n game hgame hlt]
        exact alookup_aset_self _ _ _
      have hcf :
          cleanupCond
            { game with
                players := game.players ++ [{ id := c, name := n, color := "b" }] }
            = false := by
        apply cleanupCond_false_of_two
        show 2 ≤ (game.players ++ [({ id := c, name := n, color := "b" } : Player)]).length
        simp only [List.length_append, List.length_cons, List.length_nil]
        omega
      rw [fireTimer_keep _ g _ hlook hcf]
      show alookup g ((join_game s c g n).1).games ≠ none
      rw [hlook]
      simp

/-- Witness for C1 at a concrete input: after Ann disconnects from her
one-player session the timer for "g1" is armed; if the timer fires on the
unchanged state the session is deleted (the condition still holds), while if
Bob joins before the fire the session survives the callback. -/
theorem grace_timer_double_check_witness :
    ("g1" ∈ sAfterDisc.pendingTimers) ∧
    (alookup "g1" (fireTimer sAfterDisc "g1").games =
       (if cleanupCond ⟨"g1", [⟨"A", "Ann", "w"⟩], none, []⟩ then none
        else some ⟨"g1", [⟨"A", "Ann", "w"⟩], none, []⟩)) ∧
    alookup "g1" (fireTimer ((join_game sAfterDisc "B" "g1" "Bob").1) "g1").games ≠ none :=
  ⟨by decide,
   (grace_timer_double_check sAfterDisc "g1" reachable_sAfterDisc (by decide)).1
     ⟨"g1", [⟨"A", "Ann", "w"⟩], none, []⟩ (by decide),
   (grace_timer_double_check sAfterDisc "g1" reachable_sAfterDisc (by decide)).2.2
     "B" "Bob" ⟨"g1", [⟨"A", "Ann", "w"⟩], none, []⟩ (by decide)⟩

end Chess
